import Mathlib

/-!
Shallow embedding of the core of `tg-keyword-watcher` (connection-state
supervisor and idempotent ingestion pipeline), translated from the Python
source under `app/`:

* `app/db/repo.py` — the `Repo` class: the idempotent forwarding ledger
  (`forwarded_claim`, `forwarded_mark_sent`, `forwarded_mark_failed`),
  the singleton `app_status` row writers, and `cleanup`.
* `app/bot/runtime.py` — `BotRuntime`: title normalization and target
  resolution, the loop-protection predicates, the live message handler.
* `app/main.py` — `_cleanup_loop`: the daily retention-cleanup scheduler.

Conventions of the embedding:

* Timestamps (`datetime.now(timezone.utc)` values) are modelled as `Int`
  seconds; `timedelta(seconds=s)` is subtraction of `s`, and
  `timedelta(days=d)` is `d * 86400`.
* A Python `str` that only ever flows through opaque storage is a Lean
  `String`; a string that is inspected character by character (title
  normalization) is a `List Nat` of Unicode code points (`PyStr`).
* Database tables keyed by a tuple are total functions from the key to
  `Option row`; an SQL `UPDATE ... WHERE key = k` that matches no row is a
  no-op, exactly as in Postgres.
* Each `async` method runs its statements inside one transaction holding a
  `FOR UPDATE` row lock (see `Repo.forwarded_claim`), so a method call is
  one atomic step on the table state: state passing is explicit and
  sequential interleavings of whole calls model concurrent callers.
-/

/-! ## Forwarding ledger (`Repo.forwarded_claim` / `forwarded_mark_sent` /
`forwarded_mark_failed` in `app/db/repo.py`)

The `forwarded_messages` table columns touched by the code:
`status` (text: `'pending' | 'sent' | 'failed'`), `created_at`,
`updated_at`, `last_error`. -/

inductive FwdStatus where
  | pending
  | sent
  | failed
deriving DecidableEq, Repr

structure FwdRow where
  status : FwdStatus
  created_at : Int
  updated_at : Option Int
  last_error : Option String
deriving DecidableEq, Repr

/-- The `forwarded_messages` table, keyed by `(source_chat_id, source_message_id)`. -/
def Ledger : Type := Int × Int → Option FwdRow

/-- Point update of the table (the row written by an INSERT or UPDATE at key `k`). -/
def ledgerSet (db : Ledger) (k : Int × Int) (r : FwdRow) : Ledger :=
  fun k2 => if k2 = k then some r else db k2

/-- The Python condition `updated_at is not None and updated_at > timeout`. -/
def updatedAfter (updated_at : Option Int) (timeout : Int) : Bool :=
  match updated_at with
  | none => false
  | some u => decide (timeout < u)

/-- `Repo.forwarded_claim` (repo.py lines 93-153).  `now` is the value of
`datetime.now(timezone.utc)` taken at the top of the call; the whole body
runs in one transaction with the row locked `FOR UPDATE`.  Returns the bool
result together with the table state after the transaction commits. -/
def forwarded_claim (db : Ledger) (source_chat_id source_message_id : Int)
    (pending_timeout_seconds now : Int) : Bool × Ledger :=
  let timeout := now - pending_timeout_seconds
  let k := (source_chat_id, source_message_id)
  match db k with
  | none =>
      (true, ledgerSet db k
        { status := .pending, created_at := now, updated_at := some now, last_error := none })
  | some row =>
      if row.status = .sent then (false, db)
      else if row.status = .pending ∧ updatedAfter row.updated_at timeout = true then
        (false, db)
      else
        (true, ledgerSet db k { row with status := .pending, updated_at := some now })

/-- `Repo.forwarded_mark_sent` (repo.py lines 155-167): plain SQL UPDATE of
`status` and `updated_at`; a no-op when no row has the key. -/
def forwarded_mark_sent (db : Ledger) (source_chat_id source_message_id : Int)
    (now : Int) : Ledger :=
  let k := (source_chat_id, source_message_id)
  match db k with
  | none => db
  | some row => ledgerSet db k { row with status := .sent, updated_at := some now }

/-- `Repo.forwarded_mark_failed` (repo.py lines 169-182): SQL UPDATE of
`status`, `last_error` and `updated_at`; the error string is stored as
passed in (the statement applies no transformation to `$3`). -/
def forwarded_mark_failed (db : Ledger) (source_chat_id source_message_id : Int)
    (error : String) (now : Int) : Ledger :=
  let k := (source_chat_id, source_message_id)
  match db k with
  | none => db
  | some row =>
      ledgerSet db k { row with status := .failed, last_error := some error, updated_at := some now }

/-- Run a sequence of `forwarded_claim` calls against one key; each list
entry is the `(pending_timeout_seconds, now)` pair of one call.  Returns the
list of bool results in order. -/
def claimsAfter (db : Ledger) (c m : Int) : List (Int × Int) → List Bool
  | [] => []
  | (r, t) :: rest =>
      let step := forwarded_claim db c m r t
      step.1 :: claimsAfter step.2 c m rest

/-- `n` sequential `forwarded_claim` calls on the same key, all with the same
timeout parameter and the same clock reading (concurrent callers whose
transactions serialize in some order). -/
def runRepeatedClaims (db : Ledger) (c m r t : Int) : Nat → List Bool
  | 0 => []
  | n + 1 =>
      let step := forwarded_claim db c m r t
      step.1 :: runRepeatedClaims step.2 c m r t n

/-- The empty `forwarded_messages` table. -/
def emptyLedger : Ledger := fun _ => none

/-- A table holding one `failed` row at key `(10, 100)` last updated at 100. -/
def ledgerFailedRow : Ledger :=
  fun k => if k = (10, 100) then some { status := .failed, created_at := 0, updated_at := some 100, last_error := some "x" } else none

/-- A table holding one `pending` row at key `(10, 100)` claimed at time 0. -/
def ledgerPendingRow : Ledger :=
  fun k => if k = (10, 100) then some { status := .pending, created_at := 0, updated_at := some 0, last_error := none } else none

/-- A 4001-character error message (exceeds the 4000-character bound the
spec describes). -/
def bigErr : String := String.mk (List.replicate 4001 'a')

/-! ## Title normalization (`BotRuntime._normalize_title` in `app/bot/runtime.py`)

Python: `v = value.strip().lower().replace("ё", "е"); v = re.sub(r"\s+", " ", v); return v`.

Strings inspected character by character are lists of Unicode code points.
The model of `str.lower` covers the character ranges this program's data
lives in (ASCII and the Cyrillic block, where Python's `str.lower` adds 32
to `A`-`Z` and `А`-`Я` and maps `Ё` (U+0401) to `ё` (U+0451)); the model of
whitespace covers the ASCII whitespace characters matched both by
`str.strip()` and by the regex class `\s`. -/

/-- Unicode code points. -/
abbrev PyStr : Type := List Nat

/-- Whitespace as stripped by `str.strip()` and matched by `\s`
(space, tab, LF, CR, VT, FF). -/
def pyIsSpace (n : Nat) : Bool :=
  decide (n = 32 ∨ n = 9 ∨ n = 10 ∨ n = 13 ∨ n = 11 ∨ n = 12)

/-- `str.lower`, per code point, on the ranges this program uses:
ASCII `A`-`Z` (65-90) and Cyrillic `А`-`Я` (1040-1071) shift down into
their lowercase rows; `Ё` (1025) maps to `ё` (1105); all else fixed. -/
def pyLower (n : Nat) : Nat :=
  if 65 ≤ n ∧ n ≤ 90 then n + 32
  else if 1040 ≤ n ∧ n ≤ 1071 then n + 32
  else if n = 1025 then 1105
  else n

/-- `.replace("ё", "е")`, per code point: `ё` (1105) becomes `е` (1077). -/
def foldYo (n : Nat) : Nat :=
  if n = 1105 then 1077 else n

/-- `str.strip()`: drop leading and trailing whitespace. -/
def stripWs (l : PyStr) : PyStr :=
  ((l.dropWhile pyIsSpace).reverse.dropWhile pyIsSpace).reverse

/-- Worker for `re.sub(r"\s+", " ", v)`: the flag records whether the
previous character was whitespace (in which case a further whitespace
character extends the run already replaced by one space). -/
def collapseAux : Bool → List Nat → List Nat
  | _, [] => []
  | prevWs, c :: rest =>
      if pyIsSpace c then
        if prevWs then collapseAux true rest
        else 32 :: collapseAux true rest
      else c :: collapseAux false rest

/-- `re.sub(r"\s+", " ", v)`: replace each maximal whitespace run by one space. -/
def collapseWs (l : PyStr) : PyStr := collapseAux false l

/-- `BotRuntime._normalize_title` (runtime.py lines 261-265):
strip, lower, fold `ё` to `е`, collapse whitespace runs. -/
def normalizeTitle (v : PyStr) : PyStr :=
  collapseWs (((stripWs v).map pyLower).map foldYo)

/-- View a Lean string literal as a `PyStr` of code points. -/
def pyOfString (s : String) : PyStr := s.data.map Char.toNat

/-- Strings in the image of `collapseWs`: every whitespace character is a
plain space not followed by further whitespace. -/
def wellCollapsed : PyStr → Bool
  | [] => true
  | [c] => !pyIsSpace c || c == 32
  | c :: d :: rest => (!pyIsSpace c || (c == 32 && !pyIsSpace d)) && wellCollapsed (d :: rest)

/-- The first character, when present, is not whitespace. -/
def noWsStart (l : PyStr) : Prop :=
  ∀ c, l.head? = some c → pyIsSpace c = false

/-- The last character, when present, is not whitespace. -/
def noWsEnd (l : PyStr) : Prop :=
  ∀ c, l.getLast? = some c → pyIsSpace c = false

/-! ## Target resolution (`BotRuntime._resolve_target_channel_id`,
runtime.py lines 229-259) -/

/-- One entry of the account's dialog list: its display name and id. -/
structure Dialog where
  name : PyStr
  id : Int
deriving DecidableEq, Repr

inductive ResolveError where
  | notFound
  | ambiguous
deriving DecidableEq, Repr

/-- `BotRuntime._resolve_target_channel_id`: normalize the wanted title,
scan the dialogs skipping those whose stripped name is empty, collect the
ids of the dialogs whose normalized name equals the wanted title; zero
matches is the "not found" failure, more than one the "ambiguous" failure,
exactly one resolves to that id. -/
def resolveTargetChannelId (dialogs : List Dialog) (target_title : PyStr) :
    Except ResolveError Int :=
  let wanted := normalizeTitle target_title
  let found := dialogs.filterMap (fun d =>
    let name := stripWs d.name
    if name = [] then none
    else if normalizeTitle name ≠ wanted then none
    else some d.id)
  match found with
  | [] => .error .notFound
  | [i] => .ok i
  | _ :: _ :: _ => .error .ambiguous

/-- A concrete dialog list: one dialog matching the sample target title up
to normalization, one unrelated dialog. -/
def dialogsW : List Dialog :=
  [{ name := pyOfString "Тест  Канал", id := 5 },
   { name := pyOfString "Другое", id := 7 }]

/-- A concrete configured target title. -/
def targetW : PyStr := pyOfString "тест канал"

/-! ## Loop protection and the live handler (`BotRuntime`, runtime.py) -/

/-- The supervisor state the monitoring predicates read: the resolved
target channel id (`BotRuntime._target_chat_id`), absent until resolution. -/
structure RuntimeState where
  target_chat_id : Option Int

/-- `BotRuntime.is_target_chat` (runtime.py lines 50-54). -/
def is_target_chat (st : RuntimeState) (chat_id : Option Int) : Bool :=
  match chat_id, st.target_chat_id with
  | none, _ => false
  | _, none => false
  | some c, some t => decide (c = t)

/-- `BotRuntime.should_monitor_chat` (runtime.py lines 56-62). -/
def should_monitor_chat (st : RuntimeState) (chat_id : Option Int) : Bool :=
  match chat_id with
  | none => false
  | some _ => !is_target_chat st chat_id

/-- The fields of a `events.NewMessage.Event` the handler reads. -/
structure NewMessageEvent where
  chat_id : Option Int
  is_channel : Bool
  is_group : Bool
  message_id : Int
  text : PyStr

/-- The `"..."` appended to a truncated preview. -/
def ellipsisPy : PyStr := [46, 46, 46]

/-- The `_on_new_message` handler body (runtime.py lines 201-221), up to its
only effect: `some (chat_id, message_id, preview)` when it records the
status event, `none` when it returns without acting. -/
def on_new_message (st : RuntimeState) (ev : NewMessageEvent) :
    Option (Option Int × Int × PyStr) :=
  if !(ev.is_channel || ev.is_group) then none
  else if !should_monitor_chat st ev.chat_id then none
  else
    let text := stripWs ev.text
    let preview := if 120 < text.length then text.take 120 ++ ellipsisPy else text
    some (ev.chat_id, ev.message_id, preview)

/-! ## Retention cleanup scheduling (`_cleanup_loop` in `app/main.py`) -/

/-- A UTC wall-clock instant at second granularity (the microsecond field
the code zeroes is dropped from the model). -/
structure UtcDateTime where
  year : Nat
  month : Nat
  day : Nat
  hour : Nat
  minute : Nat
  second : Nat
deriving DecidableEq, Repr

def isLeapYear (y : Nat) : Bool :=
  decide ((y % 4 = 0 ∧ y % 100 ≠ 0) ∨ y % 400 = 0)

def daysInMonth (y m : Nat) : Nat :=
  if m = 2 then (if isLeapYear y then 29 else 28)
  else if m = 4 ∨ m = 6 ∨ m = 9 ∨ m = 11 then 30
  else 31

/-- Chronological comparison of two instants. -/
def dtLE (a b : UtcDateTime) : Bool :=
  if a.year ≠ b.year then decide (a.year < b.year)
  else if a.month ≠ b.month then decide (a.month < b.month)
  else if a.day ≠ b.day then decide (a.day < b.day)
  else if a.hour ≠ b.hour then decide (a.hour < b.hour)
  else if a.minute ≠ b.minute then decide (a.minute < b.minute)
  else decide (a.second ≤ b.second)

/-- `datetime.replace(day=d)`: returns the adjusted instant, or fails
(`ValueError: day is out of range for month`) when `d` is not a valid day
of the instant's month. -/
def dtReplaceDay (t : UtcDateTime) (d : Nat) : Option UtcDateTime :=
  if 1 ≤ d ∧ d ≤ daysInMonth t.year t.month then some { t with day := d } else none

/-- The next-run computation of one `_cleanup_loop` iteration
(main.py lines 82-85): take today at 03:00:00 UTC; if that is not in the
future, move to the next calendar day via `replace(day=day + 1)`.  `none`
models the uncaught `ValueError` that kills the loop task. -/
def cleanupNextRun (now : UtcDateTime) : Option UtcDateTime :=
  let next_run := { now with hour := 3, minute := 0, second := 0 }
  if dtLE next_run now then dtReplaceDay next_run (next_run.day + 1)
  else some next_run

/-! ## Retention cleanup (`Repo.cleanup`, repo.py lines 366-388)

Only the `created_at` column decides deletion, so the two tables are
modelled as their lists of `created_at` timestamps. -/

/-- `Repo.cleanup`: delete `event_log` rows older than 7 days and
`forwarded_messages` rows older than 30 days, both by `created_at`;
returns the surviving tables and the two deleted-row counts (asyncpg's
`DELETE <n>` tags). -/
def cleanup (event_log forwarded_messages : List Int) (now : Int) :
    (List Int × List Int) × (Nat × Nat) :=
  let log_cutoff := now - 7 * 86400
  let forwards_cutoff := now - 30 * 86400
  let kept_logs := event_log.filter (fun t => !decide (t < log_cutoff))
  let kept_forwards := forwarded_messages.filter (fun t => !decide (t < forwards_cutoff))
  let deleted_logs := (event_log.filter (fun t => decide (t < log_cutoff))).length
  let deleted_forwards := (forwarded_messages.filter (fun t => decide (t < forwards_cutoff))).length
  ((kept_logs, kept_forwards), (deleted_logs, deleted_forwards))

/-- Modelled from the spec (for comparison with `cleanup`; no such
parameterized operation exists in `app/db/repo.py`): the interface
`cleanup(errorRetentionDays, ledgerRetentionDays) -> {errorEventsDeleted,
ledgerRowsDeleted}` of spec §6, deleting rows older than the two
configurable day counts. -/
def cleanupSpec (errorRetentionDays ledgerRetentionDays : Int)
    (event_log forwarded_messages : List Int) (now : Int) :
    (List Int × List Int) × (Nat × Nat) :=
  let log_cutoff := now - errorRetentionDays * 86400
  let forwards_cutoff := now - ledgerRetentionDays * 86400
  let kept_logs := event_log.filter (fun t => !decide (t < log_cutoff))
  let kept_forwards := forwarded_messages.filter (fun t => !decide (t < forwards_cutoff))
  let deleted_logs := (event_log.filter (fun t => decide (t < log_cutoff))).length
  let deleted_forwards := (forwarded_messages.filter (fun t => decide (t < forwards_cutoff))).length
  ((kept_logs, kept_forwards), (deleted_logs, deleted_forwards))

/-! ## App status singleton (`Repo.app_status_set_connected` /
`app_status_set_error`, repo.py lines 323-346)

The `app_status` table has at most the single row `id = 1`; the state is
that row or its absence. -/

structure AppStatusRow where
  connected : Bool
  last_error : Option String
  last_event_time : Option Int
  last_event_message : Option String
deriving DecidableEq, Repr

/-- `Repo.app_status_set_connected`: upsert whose UPDATE arm sets
`connected = EXCLUDED.connected, last_error = NULL` — the error column is
nulled for both values of `connected`. -/
def app_status_set_connected (st : Option AppStatusRow) (connected : Bool) :
    Option AppStatusRow :=
  match st with
  | none => some { connected := connected, last_error := none,
                   last_event_time := none, last_event_message := none }
  | some r => some { r with connected := connected, last_error := none }

/-- `Repo.app_status_set_error`: upsert whose UPDATE arm sets only
`last_error = EXCLUDED.last_error`. -/
def app_status_set_error (st : Option AppStatusRow) (error : String) :
    Option AppStatusRow :=
  match st with
  | none => some { connected := false, last_error := some error,
                   last_event_time := none, last_event_message := none }
  | some r => some { r with last_error := some error }

/-- The `last_error` column of the singleton row (`NULL` when the row is absent). -/
def statusLastError (st : Option AppStatusRow) : Option String :=
  match st with
  | none => none
  | some r => r.last_error

/-! # Theorems

## Forwarding ledger: branch lemmas for `forwarded_claim` -/

theorem forwarded_claim_of_none (db : Ledger) (c m r t : Int)
    (h : db (c, m) = none) :
    forwarded_claim db c m r t =
      (true, ledgerSet db (c, m)
        { status := .pending, created_at := t, updated_at := some t, last_error := none }) := by
  simp only [forwarded_claim, h]

theorem forwarded_claim_of_sent (db : Ledger) (row : FwdRow) (c m r t : Int)
    (h : db (c, m) = some row) (hs : row.status = .sent) :
    forwarded_claim db c m r t = (false, db) := by
  simp only [forwarded_claim, h]
  rw [if_pos hs]

theorem forwarded_claim_of_locked (db : Ledger) (row : FwdRow) (c m r t : Int)
    (h : db (c, m) = some row) (hs : row.status = .pending)
    (hb : updatedAfter row.updated_at (t - r) = true) :
    forwarded_claim db c m r t = (false, db) := by
  simp only [forwarded_claim, h]
  rw [if_neg (by simp [hs]), if_pos ⟨hs, hb⟩]

theorem forwarded_claim_of_reclaimable (db : Ledger) (row : FwdRow) (c m r t : Int)
    (h : db (c, m) = some row) (hns : row.status ≠ .sent)
    (hnf : ¬(row.status = .pending ∧ updatedAfter row.updated_at (t - r) = true)) :
    forwarded_claim db c m r t =
      (true, ledgerSet db (c, m) { row with status := .pending, updated_at := some t }) := by
  simp only [forwarded_claim, h]
  rw [if_neg hns, if_neg hnf]

theorem ledgerSet_same (db : Ledger) (k : Int × Int) (r : FwdRow) :
    ledgerSet db k r k = some r := by
  simp [ledgerSet]

theorem claimsAfter_of_sent (db : Ledger) (row : FwdRow) (c m : Int)
    (h : db (c, m) = some row) (hs : row.status = .sent) :
    ∀ ops : List (Int × Int),
      claimsAfter db c m ops = List.replicate ops.length false := by
  intro ops
  induction ops with
  | nil => rfl
  | cons op rest ih =>
      obtain ⟨r, t⟩ := op
      simp only [claimsAfter, forwarded_claim_of_sent db row c m r t h hs,
        List.length_cons, List.replicate_succ]
      exact congrArg _ ih

theorem runRepeatedClaims_of_locked (db : Ledger) (row : FwdRow) (c m r t u : Int)
    (h : db (c, m) = some row) (hs : row.status = .pending)
    (hu : row.updated_at = some u) (hf : t - r < u) :
    ∀ n : Nat, runRepeatedClaims db c m r t n = List.replicate n false := by
  have hb : updatedAfter row.updated_at (t - r) = true := by
    simp [updatedAfter, hu, hf]
  intro n
  induction n with
  | zero => rfl
  | succ k ih =>
      simp only [runRepeatedClaims, forwarded_claim_of_locked db row c m r t h hs hb,
        List.replicate_succ]
      exact congrArg _ ih

/-- C1 (amended to positive `retryAfterSeconds`): the first claim on a key
with no existing row returns true; an immediate second claim on the same
key (same clock reading) returns false; and after `markSent` on that key,
any further sequence of claims, with any parameters and clock readings,
returns false every time — sent is terminal. -/
theorem forwarded_claim_lifecycle
    (db : Ledger) (c m r t ts : Int) (ops : List (Int × Int))
    (hnone : db (c, m) = none) (hr : 0 < r) :
    (forwarded_claim db c m r t).1 = true ∧
    (forwarded_claim (forwarded_claim db c m r t).2 c m r t).1 = false ∧
    claimsAfter
      (forwarded_mark_sent (forwarded_claim (forwarded_claim db c m r t).2 c m r t).2 c m ts)
      c m ops = List.replicate ops.length false := by
  have row1 : FwdRow :=
    { status := .pending, created_at := t, updated_at := some t, last_error := none }
  rw [forwarded_claim_of_none db c m r t hnone]
  set db1 := ledgerSet db (c, m)
    { status := .pending, created_at := t, updated_at := some t, last_error := none } with hdb1
  have h1 : db1 (c, m) = some
      { status := .pending, created_at := t, updated_at := some t, last_error := none } :=
    ledgerSet_same db (c, m) _
  have h2 := forwarded_claim_of_locked db1 _ c m r t h1 rfl (by simp [updatedAfter]; omega)
  rw [h2]
  have h3 : forwarded_mark_sent db1 c m ts = ledgerSet db1 (c, m)
      { status := .sent, created_at := t, updated_at := some ts, last_error := none } := by
    simp only [forwarded_mark_sent, h1]
  rw [h3]
  refine ⟨rfl, rfl, ?_⟩
  exact claimsAfter_of_sent _ _ c m (ledgerSet_same db1 (c, m) _) rfl ops

/-- C1 witness: the amended lifecycle at the empty table, key `(10, 100)`,
`retryAfterSeconds = 60`, clock readings 0 and 30, and two later claims. -/
theorem forwarded_claim_lifecycle_witness :
    (forwarded_claim emptyLedger 10 100 60 0).1 = true ∧
    (forwarded_claim (forwarded_claim emptyLedger 10 100 60 0).2 10 100 60 0).1 = false ∧
    claimsAfter
      (forwarded_mark_sent (forwarded_claim (forwarded_claim emptyLedger 10 100 60 0).2 10 100 60 0).2 10 100 30)
      10 100 [(60, 50), (60, 100000)] = List.replicate 2 false :=
  forwarded_claim_lifecycle emptyLedger 10 100 60 0 30 [(60, 50), (60, 100000)] rfl (by decide)

/-- C1 counterexample: with `retryAfterSeconds = 0` (a value the claim's
"every retryAfterSeconds" includes) the immediate second claim on the same
key returns true, not false: elapsed time 0 already reaches the retry
threshold 0. -/
theorem forwarded_claim_immediate_second_true_at_zero :
    (forwarded_claim emptyLedger 10 100 0 0).1 = true ∧
    (forwarded_claim (forwarded_claim emptyLedger 10 100 0 0).2 10 100 0 0).1 = true := by
  decide

/-- C2 (amended: the elapsed-time threshold governs `pending` rows only;
an existing `failed` row is re-claimable immediately, already before the
threshold): for an existing `pending` row with claim time `u`, claim at
time `t` returns true iff `retryAfterSeconds ≤ t - u`; for an existing
`failed` row claim returns true unconditionally; whenever claim returns
true on an existing row, the row is re-set to `pending` with claim time `t`. -/
theorem forwarded_claim_retry_threshold
    (db : Ledger) (row : FwdRow) (c m r t u : Int)
    (h : db (c, m) = some row) :
    (row.status = .pending → row.updated_at = some u →
      ((forwarded_claim db c m r t).1 = true ↔ r ≤ t - u)) ∧
    (row.status = .failed → (forwarded_claim db c m r t).1 = true) ∧
    ((forwarded_claim db c m r t).1 = true →
      (forwarded_claim db c m r t).2 (c, m) =
        some { row with status := .pending, updated_at := some t }) := by
  refine ⟨?_, ?_, ?_⟩
  · intro hs hu
    by_cases hf : t - r < u
    · rw [forwarded_claim_of_locked db row c m r t h hs (by simp [updatedAfter, hu, hf])]
      simp
      omega
    · rw [forwarded_claim_of_reclaimable db row c m r t h (by simp [hs])
        (by simp [updatedAfter, hs, hu]; omega)]
      simp
      omega
  · intro hs
    rw [forwarded_claim_of_reclaimable db row c m r t h (by simp [hs]) (by simp [hs])]
  · intro htrue
    by_cases hsent : row.status = .sent
    · rw [forwarded_claim_of_sent db row c m r t h hsent] at htrue
      exact absurd htrue (by simp)
    by_cases hlock : row.status = .pending ∧ updatedAfter row.updated_at (t - r) = true
    · rw [forwarded_claim_of_locked db row c m r t h hlock.1 hlock.2] at htrue
      exact absurd htrue (by simp)
    · rw [forwarded_claim_of_reclaimable db row c m r t h hsent hlock]
      exact ledgerSet_same db (c, m) _

/-- C2 witness: the amended threshold facts at a concrete `pending` row
claimed at time 0, queried with `retryAfterSeconds = 60` at time 100. -/
theorem forwarded_claim_retry_threshold_witness :
    ((FwdRow.mk .pending 0 (some 0) none).status = .pending →
      (FwdRow.mk .pending 0 (some 0) none).updated_at = some 0 →
      ((forwarded_claim ledgerPendingRow 10 100 60 100).1 = true ↔ (60 : Int) ≤ 100 - 0)) ∧
    ((FwdRow.mk .pending 0 (some 0) none).status = .failed →
      (forwarded_claim ledgerPendingRow 10 100 60 100).1 = true) ∧
    ((forwarded_claim ledgerPendingRow 10 100 60 100).1 = true →
      (forwarded_claim ledgerPendingRow 10 100 60 100).2 (10, 100) =
        some { FwdRow.mk .pending 0 (some 0) none with
                 status := .pending, updated_at := some 100 }) :=
  forwarded_claim_retry_threshold ledgerPendingRow (FwdRow.mk .pending 0 (some 0) none)
    10 100 60 100 0 rfl

/-- C2 counterexample: a `failed` row last updated at time 100, claimed
again at time 100 with `retryAfterSeconds = 60`: the elapsed time 0 is
strictly below the threshold, yet the claim returns true (the code's
timeout guard tests `status == 'pending'` only, so `failed` rows skip it). -/
theorem forwarded_claim_failed_before_threshold :
    (100 : Int) - 100 < 60 ∧ (forwarded_claim ledgerFailedRow 10 100 60 100).1 = true := by
  decide

/-- C3 (amended: no failure counter exists and the error string is stored
unmodified, not truncated): `markFailed` on an existing row sets its status
to `failed`, stores the full error string, refreshes `updated_at`, and
touches no other key. -/
theorem forwarded_mark_failed_effect
    (db : Ledger) (row : FwdRow) (c m t : Int) (error : String)
    (h : db (c, m) = some row) :
    forwarded_mark_failed db c m error t (c, m) =
      some { row with status := .failed, last_error := some error, updated_at := some t } ∧
    ∀ k2, k2 ≠ (c, m) → forwarded_mark_failed db c m error t k2 = db k2 := by
  constructor
  · simp only [forwarded_mark_failed, h]
    exact ledgerSet_same db (c, m) _
  · intro k2 hk2
    simp only [forwarded_mark_failed, h, ledgerSet]
    rw [if_neg hk2]

/-- C3 witness: `markFailed` at the concrete pending row of
`ledgerPendingRow`, and its frame effect at the unrelated key `(1, 2)`. -/
theorem forwarded_mark_failed_effect_witness :
    forwarded_mark_failed ledgerPendingRow 10 100 "boom" 5 (10, 100) =
      some { FwdRow.mk .pending 0 (some 0) none with
               status := .failed, last_error := some "boom", updated_at := some 5 } ∧
    forwarded_mark_failed ledgerPendingRow 10 100 "boom" 5 (1, 2) = ledgerPendingRow (1, 2) :=
  ⟨(forwarded_mark_failed_effect ledgerPendingRow (FwdRow.mk .pending 0 (some 0) none)
      10 100 5 "boom" rfl).1,
   (forwarded_mark_failed_effect ledgerPendingRow (FwdRow.mk .pending 0 (some 0) none)
      10 100 5 "boom" rfl).2 (1, 2) (by decide)⟩

/-- C3 counterexample: a 4001-character error string is stored whole; the
stored value is the unmodified input, whose length exceeds the claimed
4000-character bound (the UPDATE statement writes `$3` untransformed). -/
theorem forwarded_mark_failed_no_truncation :
    forwarded_mark_failed ledgerPendingRow 10 100 bigErr 5 (10, 100) =
      some { status := .failed, created_at := 0, updated_at := some 5,
             last_error := some bigErr } ∧
    4000 < bigErr.length := by
  constructor
  · rfl
  · have hlen : bigErr.length = 4001 := by
      show (String.mk (List.replicate 4001 'a')).length = 4001
      rw [String.length_mk, List.length_replicate]
    omega

/-- C4: against a table whose row at the key is not `sent` and whose claim
is unexpired at the shared clock reading `t` (so `0 < retryAfterSeconds`),
any number of claim calls — each one atomic, per the `FOR UPDATE`
transaction, so concurrent callers serialize into this sequence — yields
at most one `true`. -/
theorem forwarded_claim_at_most_one_winner
    (db : Ledger) (row : FwdRow) (c m r t u : Int) (n : Nat)
    (h : db (c, m) = some row) (hns : row.status ≠ .sent)
    (hu : row.updated_at = some u) (hle : u ≤ t) (hfresh : t - u < r) :
    (runRepeatedClaims db c m r t n).count true ≤ 1 := by
  have hr : 0 < r := by omega
  cases n with
  | zero => simp [runRepeatedClaims]
  | succ k =>
      cases hstat : row.status with
      | sent => exact absurd hstat hns
      | pending =>
          rw [runRepeatedClaims_of_locked db row c m r t u h hstat hu (by omega)]
          rw [List.count_replicate]
          simp
      | failed =>
          have hstep := forwarded_claim_of_reclaimable db row c m r t h
            (by simp [hstat]) (by simp [hstat])
          simp only [runRepeatedClaims, hstep]
          have h2 : ledgerSet db (c, m) { row with status := .pending, updated_at := some t }
              (c, m) = some { row with status := .pending, updated_at := some t } :=
            ledgerSet_same db (c, m) _
          rw [runRepeatedClaims_of_locked _ _ c m r t t h2 rfl rfl (by omega)]
          rw [List.count_cons, List.count_replicate]
          simp

/-- C4 witness: three serialized claims at time 100 against the concrete
unexpired `failed` row of `ledgerFailedRow` produce at most one `true`. -/
theorem forwarded_claim_at_most_one_winner_witness :
    (runRepeatedClaims ledgerFailedRow 10 100 60 100 3).count true ≤ 1 :=
  forwarded_claim_at_most_one_winner ledgerFailedRow
    (FwdRow.mk .failed 0 (some 100) (some "x")) 10 100 60 100 100 3
    rfl (by decide) rfl (by decide) (by decide)

/-! ## Title normalization: character-level lemmas -/

theorem pyIsSpace_pyLower (n : Nat) : pyIsSpace (pyLower n) = pyIsSpace n := by
  unfold pyLower
  split_ifs <;> simp only [pyIsSpace, decide_eq_decide] <;> omega

theorem pyIsSpace_foldYo (n : Nat) : pyIsSpace (foldYo n) = pyIsSpace n := by
  unfold foldYo
  split_ifs with h
  · subst h
    rfl
  · rfl

theorem foldYo_foldYo (n : Nat) : foldYo (foldYo n) = foldYo n := by
  unfold foldYo
  split_ifs <;> omega

theorem pyLower_foldYo_pyLower (n : Nat) :
    pyLower (foldYo (pyLower n)) = foldYo (pyLower n) := by
  unfold pyLower foldYo
  split_ifs <;> omega

/-! ## Title normalization: list-level lemmas -/

theorem list_map_id_of_mem {f : Nat → Nat} :
    ∀ l : List Nat, (∀ x ∈ l, f x = x) → l.map f = l := by
  intro l h
  induction l with
  | nil => rfl
  | cons a t ih => simp_all

theorem mem_collapseAux {x : Nat} :
    ∀ {b : Bool} {l : List Nat}, x ∈ collapseAux b l → x = 32 ∨ x ∈ l := by
  intro b l
  induction l generalizing b with
  | nil => intro h; simp [collapseAux] at h
  | cons c rest ih =>
      intro h
      by_cases hws : pyIsSpace c
      · rw [collapseAux, if_pos hws] at h
        cases b with
        | true =>
            rcases ih h with h32 | hm
            · exact Or.inl h32
            · exact Or.inr (List.mem_cons_of_mem c hm)
        | false =>
            rcases List.mem_cons.mp h with h32 | hm
            · exact Or.inl h32
            · rcases ih hm with h32 | hm2
              · exact Or.inl h32
              · exact Or.inr (List.mem_cons_of_mem c hm2)
      · rw [collapseAux, if_neg hws] at h
        rcases List.mem_cons.mp h with hc | hm
        · exact Or.inr (hc ▸ List.mem_cons_self c rest)
        · rcases ih hm with h32 | hm2
          · exact Or.inl h32
          · exact Or.inr (List.mem_cons_of_mem c hm2)

theorem head_collapseAux_true_not_ws :
    ∀ (l : List Nat) (c : Nat), (collapseAux true l).head? = some c → pyIsSpace c = false := by
  intro l
  induction l with
  | nil => intro c h; simp [collapseAux] at h
  | cons d rest ih =>
      intro c h
      by_cases hws : pyIsSpace d
      · rw [collapseAux, if_pos hws, if_pos rfl] at h
        exact ih c h
      · rw [collapseAux, if_neg hws] at h
        simp only [List.head?_cons, Option.some.injEq] at h
        subst h
        simpa using hws

theorem collapseAux_false_cons_ne_nil (c : Nat) (rest : List Nat) :
    collapseAux false (c :: rest) ≠ [] := by
  by_cases hws : pyIsSpace c
  · rw [collapseAux, if_pos hws, if_neg (by simp)]
    simp
  · rw [collapseAux, if_neg hws]
    simp

theorem wellCollapsed_collapseAux :
    ∀ (l : List Nat) (b : Bool), wellCollapsed (collapseAux b l) = true := by
  intro l
  induction l with
  | nil => intro b; rfl
  | cons c rest ih =>
      intro b
      by_cases hws : pyIsSpace c
      · cases b with
        | true =>
            rw [collapseAux, if_pos hws, if_pos rfl]
            exact ih true
        | false =>
            rw [collapseAux, if_pos hws, if_neg (by simp)]
            cases hX : collapseAux true rest with
            | nil => rfl
            | cons d tail =>
                have hd : pyIsSpace d = false :=
                  head_collapseAux_true_not_ws rest d (by rw [hX]; rfl)
                have htail : wellCollapsed (d :: tail) = true := hX ▸ ih true
                rw [wellCollapsed]
                simp only [htail, hd]
                simp [pyIsSpace]
      · rw [collapseAux, if_neg hws]
        cases hX : collapseAux false rest with
        | nil =>
            rw [wellCollapsed]
            simp [hws]
        | cons d tail =>
            have htail : wellCollapsed (d :: tail) = true := hX ▸ ih false
            rw [wellCollapsed]
            simp [hws, htail]

theorem collapseAux_fix :
    ∀ l : List Nat, wellCollapsed l = true → collapseAux false l = l := by
  intro l
  induction l with
  | nil => intro _; rfl
  | cons c rest ih =>
      intro h
      cases rest with
      | nil =>
          by_cases hws : pyIsSpace c
          · have hc : c = 32 := by
              rw [wellCollapsed] at h
              simp [hws] at h
              exact h
            rw [collapseAux, if_pos hws, if_neg (by simp)]
            rw [hc]
            rfl
          · rw [collapseAux, if_neg hws]
            rfl
      | cons d tail =>
          rw [wellCollapsed] at h
          simp only [Bool.and_eq_true] at h
          obtain ⟨hhead, htail⟩ := h
          have ihtail := ih htail
          by_cases hws : pyIsSpace c
          · have hc32 : c = 32 ∧ pyIsSpace d = false := by
              simp [hws] at hhead
              exact hhead
            have hdtail : collapseAux false tail = tail := by
              rw [collapseAux, if_neg (by simp [hc32.2])] at ihtail
              exact List.cons.inj ihtail |>.2
            rw [collapseAux, if_pos hws, if_neg (by simp)]
            rw [collapseAux, if_neg (by simp [hc32.2])]
            rw [hdtail, hc32.1]
          · rw [collapseAux, if_neg hws, ihtail]

theorem noWsStart_dropWhile (l : List Nat) : noWsStart (l.dropWhile pyIsSpace) := by
  induction l with
  | nil => intro c h; simp at h
  | cons a t ih =>
      by_cases hws : pyIsSpace a
      · rw [List.dropWhile_cons_of_pos hws]
        exact ih
      · rw [List.dropWhile_cons_of_neg hws]
        intro c h
        simp only [List.head?_cons, Option.some.injEq] at h
        subst h
        simpa using hws

theorem dropWhile_eq_self_of_noWsStart {l : List Nat} (h : noWsStart l) :
    l.dropWhile pyIsSpace = l := by
  cases l with
  | nil => rfl
  | cons a t =>
      have ha : pyIsSpace a = false := h a rfl
      rw [List.dropWhile_cons_of_neg (by simp [ha])]

theorem noWsStart_reverse_iff (l : List Nat) : noWsStart l.reverse ↔ noWsEnd l := by
  unfold noWsStart noWsEnd
  simp only [List.head?_reverse]

theorem noWsEnd_reverse_iff (l : List Nat) : noWsEnd l.reverse ↔ noWsStart l := by
  unfold noWsStart noWsEnd
  simp only [List.getLast?_reverse]

theorem getLast?_dropWhile (p : Nat → Bool) :
    ∀ l : List Nat, l.dropWhile p ≠ [] → (l.dropWhile p).getLast? = l.getLast? := by
  intro l
  induction l with
  | nil => intro h; simp at h
  | cons a t ih =>
      intro h
      by_cases hp : p a
      · rw [List.dropWhile_cons_of_pos hp] at h ⊢
        have ht : t ≠ [] := by
          intro he
          rw [he] at h
          simp at h
        rw [ih h]
        cases t with
        | nil => exact absurd rfl ht
        | cons b u => rw [List.getLast?_cons_cons]
      · rw [List.dropWhile_cons_of_neg hp]

theorem dropWhile_ne_nil_of_noWsEnd :
    ∀ l : List Nat, noWsEnd l → l ≠ [] → l.dropWhile pyIsSpace ≠ [] := by
  intro l
  induction l with
  | nil => intro _ h; exact absurd rfl h
  | cons a t ih =>
      intro hend _
      by_cases hp : pyIsSpace a
      · rw [List.dropWhile_cons_of_pos hp]
        have ht : t ≠ [] := by
          intro he
          subst he
          have := hend a rfl
          rw [this] at hp
          exact absurd hp (by simp)
        have hendt : noWsEnd t := by
          intro c hc
          apply hend c
          cases t with
          | nil => exact absurd rfl ht
          | cons b u => rw [List.getLast?_cons_cons]; exact hc
        exact ih hendt ht
      · rw [List.dropWhile_cons_of_neg hp]
        simp

theorem noWsStart_stripWs (l : List Nat) : noWsStart (stripWs l) := by
  unfold stripWs
  set a := l.dropWhile pyIsSpace with ha
  set b := a.reverse.dropWhile pyIsSpace with hb
  intro c hc
  rw [List.head?_reverse] at hc
  have hbne : b ≠ [] := by
    intro he
    rw [he] at hc
    simp at hc
  rw [hb, getLast?_dropWhile pyIsSpace a.reverse (hb ▸ hbne), List.getLast?_reverse] at hc
  exact noWsStart_dropWhile l c hc

theorem noWsEnd_stripWs (l : List Nat) : noWsEnd (stripWs l) := by
  unfold stripWs
  rw [noWsEnd_reverse_iff]
  exact noWsStart_dropWhile _

theorem stripWs_eq_self {l : List Nat} (h1 : noWsStart l) (h2 : noWsEnd l) :
    stripWs l = l := by
  unfold stripWs
  rw [dropWhile_eq_self_of_noWsStart h1,
      dropWhile_eq_self_of_noWsStart ((noWsStart_reverse_iff l).mpr h2),
      List.reverse_reverse]

theorem stripWs_stripWs (l : List Nat) : stripWs (stripWs l) = stripWs l :=
  stripWs_eq_self (noWsStart_stripWs l) (noWsEnd_stripWs l)

theorem mem_stripWs {x : Nat} {l : List Nat} (h : x ∈ stripWs l) : x ∈ l := by
  unfold stripWs at h
  rw [List.mem_reverse] at h
  have h2 := (List.dropWhile_sublist pyIsSpace).subset h
  rw [List.mem_reverse] at h2
  exact (List.dropWhile_sublist pyIsSpace).subset h2

theorem noWsStart_map {f : Nat → Nat} (hf : ∀ n, pyIsSpace (f n) = pyIsSpace n)
    {l : List Nat} (h : noWsStart l) : noWsStart (l.map f) := by
  intro c hc
  rw [List.head?_map] at hc
  cases hl : l.head? with
  | none => rw [hl] at hc; simp at hc
  | some d =>
      rw [hl] at hc
      simp only [Option.map_some', Option.some.injEq] at hc
      subst hc
      rw [hf d]
      exact h d hl

theorem noWsEnd_map {f : Nat → Nat} (hf : ∀ n, pyIsSpace (f n) = pyIsSpace n)
    {l : List Nat} (h : noWsEnd l) : noWsEnd (l.map f) := by
  intro c hc
  rw [List.getLast?_map] at hc
  cases hl : l.getLast? with
  | none => rw [hl] at hc; simp at hc
  | some d =>
      rw [hl] at hc
      simp only [Option.map_some', Option.some.injEq] at hc
      subst hc
      rw [hf d]
      exact h d hl

theorem collapseAux_true_eq_dropWhile :
    ∀ l : List Nat, collapseAux true l = collapseAux false (l.dropWhile pyIsSpace) := by
  intro l
  induction l with
  | nil => rfl
  | cons c rest ih =>
      by_cases hws : pyIsSpace c
      · rw [collapseAux, if_pos hws, if_pos rfl, List.dropWhile_cons_of_pos hws]
        exact ih
      · rw [collapseAux, if_neg hws, List.dropWhile_cons_of_neg hws,
          collapseAux, if_neg hws]

theorem noWsStart_collapseAux {l : List Nat} (h : noWsStart l) :
    noWsStart (collapseAux false l) := by
  cases l with
  | nil => exact h
  | cons c rest =>
      have hc : pyIsSpace c = false := h c rfl
      rw [collapseAux, if_neg (by simp [hc])]
      intro d hd
      simp only [List.head?_cons, Option.some.injEq] at hd
      subst hd
      exact hc

theorem noWsEnd_collapseAux :
    ∀ (l : List Nat) (b : Bool), noWsEnd l → noWsEnd (collapseAux b l) := by
  intro l
  induction l with
  | nil => intro b _; intro c hc; simp [collapseAux] at hc
  | cons c rest ih =>
      intro b hend
      cases rest with
      | nil =>
          have hc : pyIsSpace c = false := hend c rfl
          rw [collapseAux, if_neg (by simp [hc])]
          intro d hd
          simp only [collapseAux] at hd
          simp only [List.getLast?_singleton, Option.some.injEq] at hd
          subst hd
          exact hc
      | cons e tail =>
          have hendrest : noWsEnd (e :: tail) := by
            intro d hd
            apply hend d
            rw [List.getLast?_cons_cons]
            exact hd
          by_cases hws : pyIsSpace c
          · have hne : (e :: tail).dropWhile pyIsSpace ≠ [] :=
              dropWhile_ne_nil_of_noWsEnd (e :: tail) hendrest (by simp)
            have hX : collapseAux true (e :: tail) ≠ [] := by
              rw [collapseAux_true_eq_dropWhile]
              cases hdw : (e :: tail).dropWhile pyIsSpace with
              | nil => exact absurd hdw hne
              | cons f u => exact collapseAux_false_cons_ne_nil f u
            have hrec : noWsEnd (collapseAux true (e :: tail)) := ih true hendrest
            cases b with
            | true =>
                rw [collapseAux, if_pos hws, if_pos rfl]
                exact hrec
            | false =>
                rw [collapseAux, if_pos hws, if_neg (by simp)]
                intro d hd
                apply hrec d
                cases hXc : collapseAux true (e :: tail) with
                | nil => exact absurd hXc hX
                | cons f u =>
                    rw [hXc] at hd
                    rw [List.getLast?_cons_cons] at hd
                    exact hd
          · have hX : collapseAux false (e :: tail) ≠ [] :=
              collapseAux_false_cons_ne_nil e tail
            have hrec : noWsEnd (collapseAux false (e :: tail)) := ih false hendrest
            rw [collapseAux, if_neg hws]
            intro d hd
            apply hrec d
            cases hXc : collapseAux false (e :: tail) with
            | nil => exact absurd hXc hX
            | cons f u =>
                rw [hXc] at hd
                rw [List.getLast?_cons_cons] at hd
                exact hd

theorem collapseWs_ne_nil {l : List Nat} (h : l ≠ []) : collapseWs l ≠ [] := by
  unfold collapseWs
  cases l with
  | nil => exact absurd rfl h
  | cons c rest => exact collapseAux_false_cons_ne_nil c rest

theorem normalizeTitle_ne_nil {v : PyStr} (h : stripWs v ≠ []) :
    normalizeTitle v ≠ [] := by
  unfold normalizeTitle
  apply collapseWs_ne_nil
  simp only [ne_eq, List.map_eq_nil_iff]
  exact h

theorem normalizeTitle_nil_of_strip_nil {v : PyStr} (h : stripWs v = []) :
    normalizeTitle v = [] := by
  unfold normalizeTitle
  rw [h]
  rfl

theorem normalizeTitle_stripWs (v : PyStr) :
    normalizeTitle (stripWs v) = normalizeTitle v := by
  unfold normalizeTitle
  rw [stripWs_stripWs]

theorem normalizeTitle_idempotent (v : PyStr) :
    normalizeTitle (normalizeTitle v) = normalizeTitle v := by
  have hwspres : ∀ n, pyIsSpace (foldYo (pyLower n)) = pyIsSpace n := by
    intro n
    rw [pyIsSpace_foldYo, pyIsSpace_pyLower]
  set s := stripWs v with hs
  set w := (s.map pyLower).map foldYo with hw
  have hu : normalizeTitle v = collapseAux false w := rfl
  set u := collapseAux false w with hudef
  have hstart_w : noWsStart w := by
    rw [hw]
    exact noWsStart_map pyIsSpace_foldYo (noWsStart_map pyIsSpace_pyLower (noWsStart_stripWs v))
  have hend_w : noWsEnd w := by
    rw [hw]
    exact noWsEnd_map pyIsSpace_foldYo (noWsEnd_map pyIsSpace_pyLower (noWsEnd_stripWs v))
  have hstart_u : noWsStart u := noWsStart_collapseAux hstart_w
  have hend_u : noWsEnd u := noWsEnd_collapseAux w false hend_w
  have hmem : ∀ x ∈ u, pyLower x = x ∧ foldYo x = x := by
    intro x hx
    rcases mem_collapseAux hx with h32 | hmw
    · subst h32
      exact ⟨rfl, rfl⟩
    · rw [hw] at hmw
      rcases List.mem_map.mp hmw with ⟨y, hy, hxy⟩
      rcases List.mem_map.mp hy with ⟨z, _, hyz⟩
      subst hxy
      subst hyz
      exact ⟨pyLower_foldYo_pyLower z, foldYo_foldYo (pyLower z)⟩
  have hfix : collapseAux false u = u := collapseAux_fix u (wellCollapsed_collapseAux w false)
  show normalizeTitle u = u
  unfold normalizeTitle collapseWs
  rw [stripWs_eq_self hstart_u hend_u,
      list_map_id_of_mem u (fun x hx => (hmem x hx).1),
      list_map_id_of_mem u (fun x hx => (hmem x hx).2)]
  exact hfix

/-- C6: title normalization is idempotent — normalizing twice equals
normalizing once for every (modelled) input string — and the sample titles
`"Тест  Канал"`, `"тест канал"`, `"ТЕСТ КАНАЛ"` all normalize to the same
result. -/
theorem normalize_title_idem_and_examples :
    (∀ v : PyStr, normalizeTitle (normalizeTitle v) = normalizeTitle v) ∧
    normalizeTitle (pyOfString "Тест  Канал") = normalizeTitle (pyOfString "тест канал") ∧
    normalizeTitle (pyOfString "ТЕСТ КАНАЛ") = normalizeTitle (pyOfString "тест канал") := by
  refine ⟨normalizeTitle_idempotent, ?_, ?_⟩ <;> decide

/-! ## Target resolution -/

theorem resolve_entry_eq (target : PyStr) (hne : normalizeTitle target ≠ []) (d : Dialog) :
    (if stripWs d.name = [] then none
     else if normalizeTitle (stripWs d.name) ≠ normalizeTitle target then none
     else some d.id) =
    (if normalizeTitle d.name = normalizeTitle target then some d.id else none) := by
  by_cases h0 : stripWs d.name = []
  · rw [if_pos h0]
    have hnil : normalizeTitle d.name = [] := normalizeTitle_nil_of_strip_nil h0
    rw [if_neg (by rw [hnil]; exact fun he => hne he.symm)]
  · rw [if_neg h0, normalizeTitle_stripWs]
    by_cases he : normalizeTitle d.name = normalizeTitle target
    · rw [if_neg (fun hn => hn he), if_pos he]
    · rw [if_pos he, if_neg he]

theorem resolve_found_eq (dialogs : List Dialog) (target : PyStr)
    (hne : normalizeTitle target ≠ []) :
    dialogs.filterMap (fun d =>
      if stripWs d.name = [] then none
      else if normalizeTitle (stripWs d.name) ≠ normalizeTitle target then none
      else some d.id) =
    (dialogs.filter (fun d => normalizeTitle d.name == normalizeTitle target)).map Dialog.id := by
  induction dialogs with
  | nil => rfl
  | cons d rest ih =>
      rw [List.filterMap_cons, List.filter_cons, resolve_entry_eq target hne d]
      by_cases he : normalizeTitle d.name = normalizeTitle target
      · rw [if_pos he]
        simp only [he, beq_self_eq_true, if_pos]
        rw [List.map_cons, ih]
      · rw [if_neg he]
        have hbeq : (normalizeTitle d.name == normalizeTitle target) = false := by
          simpa using he
        rw [hbeq]
        simpa using ih

/-- C5: for a configured target title (nonempty once stripped, as the
supervisor guarantees before calling the resolver): zero dialogs whose
title normalizes to the normalized target make resolution fail "not
found"; more than one make it fail "ambiguous"; exactly one resolves to
that dialog's id. -/
theorem resolve_target_channel_cases
    (dialogs : List Dialog) (target : PyStr) (hne : stripWs target ≠ []) :
    ((dialogs.filter (fun d => normalizeTitle d.name == normalizeTitle target)).length = 0 →
      resolveTargetChannelId dialogs target = .error .notFound) ∧
    (1 < (dialogs.filter (fun d => normalizeTitle d.name == normalizeTitle target)).length →
      resolveTargetChannelId dialogs target = .error .ambiguous) ∧
    (∀ d, d ∈ dialogs → normalizeTitle d.name = normalizeTitle target →
      (dialogs.filter (fun d2 => normalizeTitle d2.name == normalizeTitle target)).length = 1 →
      resolveTargetChannelId dialogs target = .ok d.id) := by
  have hwne : normalizeTitle target ≠ [] := normalizeTitle_ne_nil hne
  have hfound : resolveTargetChannelId dialogs target =
      (match (dialogs.filter
          (fun d => normalizeTitle d.name == normalizeTitle target)).map Dialog.id with
       | [] => .error .notFound
       | [i] => .ok i
       | _ :: _ :: _ => .error .ambiguous) := by
    simp only [resolveTargetChannelId]
    rw [resolve_found_eq dialogs target hwne]
  refine ⟨?_, ?_, ?_⟩
  · intro h0
    rw [hfound, List.length_eq_zero.mp h0]
    rfl
  · intro h1
    rw [hfound]
    rcases hL2 : dialogs.filter (fun d => normalizeTitle d.name == normalizeTitle target) with
      _ | ⟨a, _ | ⟨b, u⟩⟩
    · rw [hL2] at h1
      simp at h1
    · rw [hL2] at h1
      simp at h1
    · rw [hL2]
      rfl
  · intro d hd hmatch h1
    obtain ⟨e, he⟩ := List.length_eq_one.mp h1
    have hdL : d ∈ dialogs.filter (fun d2 => normalizeTitle d2.name == normalizeTitle target) :=
      List.mem_filter.mpr ⟨hd, by simp [hmatch]⟩
    rw [he] at hdL
    have hde : d = e := by simpa using hdL
    rw [hfound, he, hde]
    rfl

/-- C5 witness: among the concrete dialogs `dialogsW` exactly one title
normalizes like `targetW`, and resolution returns its id 5. -/
theorem resolve_target_channel_cases_witness :
    stripWs targetW ≠ [] ∧ resolveTargetChannelId dialogsW targetW = .ok 5 := by
  refine ⟨by decide, ?_⟩
  have h := (resolve_target_channel_cases dialogsW targetW (by decide)).2.2
    { name := pyOfString "Тест  Канал", id := 5 } (by decide) (by decide) (by decide)
  exact h

/-! ## Loop protection, the live handler, scheduling, cleanup, app status -/

/-- C7: once a target channel is resolved, `should_monitor_chat` rejects
the target id and accepts every other id, and the live handler returns
without any action for an event whose chat is the resolved target. -/
theorem should_monitor_target_rules
    (st : RuntimeState) (t : Int) (ev : NewMessageEvent)
    (h : st.target_chat_id = some t) :
    should_monitor_chat st (some t) = false ∧
    (∀ o : Int, o ≠ t → should_monitor_chat st (some o) = true) ∧
    (ev.chat_id = some t → on_new_message st ev = none) := by
  refine ⟨?_, ?_, ?_⟩
  · simp [should_monitor_chat, is_target_chat, h]
  · intro o ho
    simp [should_monitor_chat, is_target_chat, h, ho]
  · intro hev
    by_cases hch : (ev.is_channel || ev.is_group) = true
    · simp [on_new_message, hch, hev, should_monitor_chat, is_target_chat, h]
    · simp [on_new_message, hch]

/-- C7 witness: with resolved target 42, the target chat is not monitored,
chat 7 is, and the handler takes no action on an event from chat 42. -/
theorem should_monitor_target_rules_witness :
    should_monitor_chat { target_chat_id := some 42 } (some 42) = false ∧
    should_monitor_chat { target_chat_id := some 42 } (some 7) = true ∧
    on_new_message { target_chat_id := some 42 }
      { chat_id := some 42, is_channel := true, is_group := false,
        message_id := 9, text := pyOfString "hello" } = none :=
  ⟨(should_monitor_target_rules { target_chat_id := some 42 } 42
      { chat_id := some 42, is_channel := true, is_group := false,
        message_id := 9, text := pyOfString "hello" } rfl).1,
   (should_monitor_target_rules { target_chat_id := some 42 } 42
      { chat_id := some 42, is_channel := true, is_group := false,
        message_id := 9, text := pyOfString "hello" } rfl).2.1 7 (by decide),
   (should_monitor_target_rules { target_chat_id := some 42 } 42
      { chat_id := some 42, is_channel := true, is_group := false,
        message_id := 9, text := pyOfString "hello" } rfl).2.2 rfl⟩

/-- C8 (code bug): at 04:00:00 UTC on 2026-01-31 — any last day of a month
past 03:00 — the rescheduling step `next_run.replace(day=next_run.day + 1)`
of `_cleanup_loop` fails (day 32 is out of range for the month) instead of
yielding the next day's 03:00; since the loop body has no exception
handling, the error ends the loop rather than rescheduling. -/
theorem cleanup_next_run_month_end_error :
    cleanupNextRun { year := 2026, month := 1, day := 31, hour := 4, minute := 0, second := 0 }
      = none := by
  decide

/-- C9 (amended: `Repo.cleanup` accepts no retention parameters — the day
counts are fixed at 7 for event-log rows and 30 for ledger rows): cleanup
deletes exactly the rows older than the fixed cutoffs by creation
timestamp, leaves the newer rows untouched, returns the two deleted
counts, and an immediate re-run at the same clock deletes 0 rows. -/
theorem cleanup_retention_fixed (event_log forwarded : List Int) (now : Int) :
    (cleanup event_log forwarded now).1.1
      = event_log.filter (fun t => !decide (t < now - 7 * 86400)) ∧
    (cleanup event_log forwarded now).1.2
      = forwarded.filter (fun t => !decide (t < now - 30 * 86400)) ∧
    (cleanup event_log forwarded now).2.1
      = (event_log.filter (fun t => decide (t < now - 7 * 86400))).length ∧
    (cleanup event_log forwarded now).2.2
      = (forwarded.filter (fun t => decide (t < now - 30 * 86400))).length ∧
    cleanup (cleanup event_log forwarded now).1.1 (cleanup event_log forwarded now).1.2 now
      = (((cleanup event_log forwarded now).1.1, (cleanup event_log forwarded now).1.2),
         (0, 0)) := by
  have hkeep : ∀ (l : List Int) (c : Int),
      (l.filter (fun t => !decide (t < c))).filter (fun t => !decide (t < c))
        = l.filter (fun t => !decide (t < c)) := by
    intro l c
    rw [List.filter_filter]
    congr 1
    funext a
    rw [Bool.and_self]
  have hzero : ∀ (l : List Int) (c : Int),
      (l.filter (fun t => !decide (t < c))).filter (fun t => decide (t < c)) = [] := by
    intro l c
    rw [List.filter_filter]
    have hfalse : (fun a : Int => decide (a < c) && !decide (a < c)) = fun _ : Int => false := by
      funext a
      exact Bool.and_not_self _
    rw [hfalse]
    exact List.filter_false l
  refine ⟨rfl, rfl, rfl, rfl, ?_⟩
  show ((_, _), (_, _)) = ((_, _), (0, 0))
  rw [Prod.mk.injEq, Prod.mk.injEq, Prod.mk.injEq]
  refine ⟨⟨hkeep _ _, hkeep _ _⟩, ?_, ?_⟩
  · have h1 : (cleanup event_log forwarded now).1.1
        = event_log.filter (fun t => !decide (t < now - 7 * 86400)) := rfl
    rw [h1, hzero]
    rfl
  · have h2 : (cleanup event_log forwarded now).1.2
        = forwarded.filter (fun t => !decide (t < now - 30 * 86400)) := rfl
    rw [h2, hzero]
    rfl

/-- C9 counterexample: an event-log row created at time 0, cleaned up at
`now` = 10 days: the code deletes it under its fixed 7-day cutoff, while
the claimed configurable interface with `errorRetentionDays = 15`
(spec-modelled `cleanupSpec`) would retain it — `cleanup` accepts no
retention-day parameters. -/
theorem cleanup_not_configurable :
    (cleanup [0] [] (10 * 86400)).2.1 = 1 ∧
    (cleanup [0] [] (10 * 86400)).1.1 = [] ∧
    (cleanupSpec 15 30 [0] [] (10 * 86400)).2.1 = 0 ∧
    (cleanupSpec 15 30 [0] [] (10 * 86400)).1.1 = [0] := by
  decide

/-- C10: every `statusSetConnected(b)` write nulls the stored `last_error`
for both `b = true` and `b = false` (the upsert's UPDATE arm always sets
`last_error = NULL`), so the error written by the supervisor's failure
paths right before they flip the connected flag is erased from the row. -/
theorem app_status_set_connected_clears_error
    (st : Option AppStatusRow) (b : Bool) (e : String) :
    statusLastError (app_status_set_connected st b) = none ∧
    statusLastError (app_status_set_error st e) = some e ∧
    statusLastError (app_status_set_connected (app_status_set_error st e) b) = none := by
  refine ⟨?_, ?_, ?_⟩ <;>
    cases st <;>
    simp [app_status_set_connected, app_status_set_error, statusLastError]
